import Mathlib

/-!
Shallow embedding of the sudoku-solver repository
(src/src/constraints/typedefs.rs and src/src/constraints/solve.rs).

Modelling conventions:
* Rust `u8` coordinates and digits are modelled as `Nat`; no arithmetic in
  the embedded code paths wraps for the inputs ever considered, and the one
  subtraction (`8 - pos.col` in `DiagonalConstraint::get_group`) together
  with the panicking `CellPosition::for_coord` is modelled by `Option`
  (`none` stands for the Rust panic).
* `std::collections::HashMap<K, V>` is modelled extensionally as the
  function type `K → Option V`; `insert` is pointwise update and `extend`
  prefers the right-hand map, matching last-write-wins semantics.
* `Vec<T>` is `List T`, pushed in the same order as the Rust loops.
* The trait objects `Box<dyn Constraint>` stored by `PuzzleBuilder` are
  modelled by the closed tag type `ConstraintTag`, one tag per
  `GroupConstraint` implementation in the source; the blanket
  `impl<T: GroupConstraint> Constraint for T` becomes `ConstraintTag.apply`.
-/

namespace Sudoku

/-- Extensional model of `std::collections::HashMap`. -/
def HMap (α β : Type) : Type := α → Option β

/-- Model of `HashMap::new()`. -/
def HMap.empty {α β : Type} : HMap α β := fun _ => none

/-- Model of `HashMap::insert` (later insertion for the same key overwrites). -/
def HMap.insert {α β : Type} [DecidableEq α] (m : HMap α β) (k : α) (v : β) :
    HMap α β :=
  fun q => if q = k then some v else m q

/-- Model of `HashMap::extend`: entries of the second map overwrite the first. -/
def HMap.extend {α β : Type} (m other : HMap α β) : HMap α β :=
  fun q => match other q with
    | some v => some v
    | none => m q

/-- Model of `struct Position { row: u8, col: u8 }` in typedefs.rs. -/
structure Position where
  row : Nat
  col : Nat
deriving DecidableEq, Repr

/-- Model of `enum CellPosition { START, MIDDLE, END }`. -/
inductive CellPosition where
  | START
  | MIDDLE
  | END
deriving DecidableEq, Repr

/-- Model of `CellPosition::offset`. -/
def CellPosition.offset : CellPosition → Nat
  | .START => 0
  | .MIDDLE => 3
  | .END => 6

/-- Model of `CellPosition::for_coord`; the Rust match panics for coordinates
outside `0..9`, modelled by `none`. -/
def CellPosition.for_coord (coord : Nat) : Option CellPosition :=
  if coord < 3 then some .START
  else if coord < 6 then some .MIDDLE
  else if coord < 9 then some .END
  else none

/-- Model of `CellPosition::for_position`. -/
def CellPosition.for_position (pos : Position) :
    Option (CellPosition × CellPosition) :=
  match CellPosition.for_coord pos.row, CellPosition.for_coord pos.col with
  | some rp, some cp => some (rp, cp)
  | _, _ => none

/-- Model of `struct Group { positions: Vec<Position> }`. -/
structure Group where
  positions : List Position
deriving DecidableEq, Repr

/-- Model of `Group::row`: positions `(row, 0) .. (row, 8)` in loop order. -/
def Group.row (row : Nat) : Group :=
  ⟨(List.range 9).map fun col => Position.mk row col⟩

/-- Model of `Group::col`: positions `(0, col) .. (8, col)` in loop order. -/
def Group.col (col : Nat) : Group :=
  ⟨(List.range 9).map fun row => Position.mk row col⟩

/-- Model of `Group::cell`: the 3×3 block at the two offsets, row-major loop order. -/
def Group.cell (row_pos col_pos : CellPosition) : Group :=
  ⟨(List.range 3).flatMap fun row =>
    (List.range 3).map fun col =>
      Position.mk (row_pos.offset + row) (col_pos.offset + col)⟩

/-- Model of `Group::diag`: for `top` the main diagonal `(c, c)`, otherwise the
anti-diagonal `(8 - c, c)`, for `c` in `0..9`. -/
def Group.diag (top : Bool) : Group :=
  ⟨(List.range 9).map fun col =>
    Position.mk (if top then col else 8 - col) col⟩

/-- Model of `RowConstraint`'s `GroupConstraint::get_group`. -/
def RowConstraint.get_group (pos : Position) : Group :=
  Group.row pos.row

/-- Model of `ColumnConstraint`'s `GroupConstraint::get_group`. -/
def ColumnConstraint.get_group (pos : Position) : Group :=
  Group.col pos.col

/-- Model of `CellConstraint`'s `GroupConstraint::get_group`; `none` models the
panic raised by `CellPosition::for_coord` on out-of-range coordinates. -/
def CellConstraint.get_group (pos : Position) : Option Group :=
  match CellPosition.for_position pos with
  | some (rp, cp) => some (Group.cell rp cp)
  | none => none

/-- Model of `DiagonalConstraint`'s `GroupConstraint::get_group`: appends the main
diagonal when `row == col` and the anti-diagonal when `row == 8 - col`
into a single returned `Group`; `none` models the debug-build panic of
the `u8` subtraction `8 - pos.col` when `col > 8`. -/
def DiagonalConstraint.get_group (pos : Position) : Option Group :=
  if 8 < pos.col then none
  else some ⟨(if pos.row = pos.col then (Group.diag true).positions else [])
    ++ (if pos.row = 8 - pos.col then (Group.diag false).positions else [])⟩

/-- Closed tag type standing for the four `GroupConstraint`
implementations stored as `Box<dyn Constraint>` trait objects. -/
inductive ConstraintTag where
  | rowC
  | colC
  | cellC
  | diagC
deriving DecidableEq, Repr

/-- Dispatch of `GroupConstraint::get_group` over the tags; `Option`
uniformly carries the panic of the cell and diagonal lookups. -/
def ConstraintTag.get_group : ConstraintTag → Position → Option Group
  | .rowC, pos => some (RowConstraint.get_group pos)
  | .colC, pos => some (ColumnConstraint.get_group pos)
  | .cellC, pos => CellConstraint.get_group pos
  | .diagC, pos => DiagonalConstraint.get_group pos

/-- The blanket `impl<T: GroupConstraint> Constraint for T`: build the
elimination map by inserting `vec![value]` for every group position other
than `pos`, in iteration order. -/
def ConstraintTag.apply (t : ConstraintTag) (value : Nat) (pos : Position) :
    Option (HMap Position (List Nat)) :=
  (t.get_group pos).map fun g =>
    g.positions.foldl
      (fun m group_pos =>
        if group_pos ≠ pos then m.insert group_pos [value] else m)
      HMap.empty

/-- Model of `struct PuzzleBuilder` in typedefs.rs. -/
structure PuzzleBuilder where
  groups : List Group
  constraints : List ConstraintTag
  clues : HMap Position Nat

/-- Model of `PuzzleBuilder::new`. -/
def PuzzleBuilder.new : PuzzleBuilder :=
  ⟨[], [], HMap.empty⟩

/-- Model of `PuzzleBuilder::add_group`. -/
def PuzzleBuilder.add_group (b : PuzzleBuilder) (g : Group) : PuzzleBuilder :=
  { b with groups := b.groups ++ [g] }

/-- Model of `PuzzleBuilder::add_row_groups`. -/
def PuzzleBuilder.add_row_groups (b : PuzzleBuilder) : PuzzleBuilder :=
  (List.range 9).foldl (fun b row => b.add_group (Group.row row)) b

/-- Model of `PuzzleBuilder::add_col_groups`. -/
def PuzzleBuilder.add_col_groups (b : PuzzleBuilder) : PuzzleBuilder :=
  (List.range 9).foldl (fun b col => b.add_group (Group.col col)) b

/-- Model of `PuzzleBuilder::add_cell_groups`: both loops iterate
`[START, MIDDLE, END]`, row position outer. -/
def PuzzleBuilder.add_cell_groups (b : PuzzleBuilder) : PuzzleBuilder :=
  let positions : List CellPosition := [.START, .MIDDLE, .END]
  positions.foldl
    (fun b row_pos =>
      positions.foldl
        (fun b col_pos => b.add_group (Group.cell row_pos col_pos)) b)
    b

/-- Model of `PuzzleBuilder::add_diag_groups`. -/
def PuzzleBuilder.add_diag_groups (b : PuzzleBuilder) : PuzzleBuilder :=
  (b.add_group (Group.diag true)).add_group (Group.diag false)

/-- Model of `PuzzleBuilder::add_constraint`. -/
def PuzzleBuilder.add_constraint (b : PuzzleBuilder) (c : ConstraintTag) :
    PuzzleBuilder :=
  { b with constraints := b.constraints ++ [c] }

/-- Model of `PuzzleBuilder::add_clue`: plain `HashMap::insert`, replacing any
earlier clue at the same position. -/
def PuzzleBuilder.add_clue (b : PuzzleBuilder) (pos : Position) (value : Nat) :
    PuzzleBuilder :=
  { b with clues := b.clues.insert pos value }

/-- Model of `PuzzleBuilder::add_clues`: `HashMap::extend`. -/
def PuzzleBuilder.add_clues (b : PuzzleBuilder) (clues : HMap Position Nat) :
    PuzzleBuilder :=
  { b with clues := b.clues.extend clues }

/-- Model of `struct Puzzle` in typedefs.rs. -/
structure Puzzle where
  groups : List Group
  constraints : List ConstraintTag
  clues : HMap Position Nat

/-- Model of `PuzzleBuilder::build`: moves the fields into a `Puzzle` with no
validation of any kind. -/
def PuzzleBuilder.build (b : PuzzleBuilder) : Puzzle :=
  ⟨b.groups, b.constraints, b.clues⟩

/-- Model of `Puzzle::standard`: row, column and cell groups plus the clues. -/
def Puzzle.standard (clues : HMap Position Nat) : Puzzle :=
  (PuzzleBuilder.new.add_row_groups.add_col_groups.add_cell_groups.add_clues
    clues).build

/-- Model of `struct Solution` in typedefs.rs. -/
structure Solution where
  puzzle : Puzzle
  elements : HMap Position Nat

/-- Model of `solve` in solve.rs: returns the puzzle with an empty element map. -/
def solve (puzzle : Puzzle) : Solution :=
  ⟨puzzle, HMap.empty⟩

/-!
Concrete test inputs used to evaluate the embedded code.
-/

/-- Test input: two clues with the equal digit 5 in row 0. -/
def dup_clues : HMap Position Nat :=
  (HMap.empty.insert (Position.mk 0 0) 5).insert (Position.mk 0 1) 5

/-- Test input: a single clue, digit 1 at the top-left cell. -/
def one_clue : HMap Position Nat :=
  HMap.empty.insert (Position.mk 0 0) 1

/-- Test input: a complete valid sudoku grid given as clues; the digit at
`(r, c)` is `(3 * (r mod 3) + r / 3 + c) mod 9 + 1`, a standard cyclic
construction with no repeated digit in any row, column or box. -/
def full_grid : HMap Position Nat := fun p =>
  if p.row < 9 ∧ p.col < 9 then
    some ((3 * (p.row % 3) + p.row / 3 + p.col) % 9 + 1)
  else none

/-- All 81 cells of the 9×9 board in row-major order. -/
def all_cells : List Position :=
  (List.range 9).flatMap fun r => (List.range 9).map fun c => Position.mk r c

/-- Number of board cells on which a clue or element map is defined. -/
def count_assigned (m : HMap Position Nat) : Nat :=
  (all_cells.filter fun p => (m p).isSome).length

/-- Decidable check that no group of a puzzle holds two equal clue digits. -/
def clues_valid (pz : Puzzle) : Bool :=
  pz.groups.all fun g => (g.positions.filterMap pz.clues).Nodup

/-!
Claim theorems.
-/

/-- C1. The claim states that building a puzzle whose clue mapping holds two
equal digits in a shared group fails with `InvalidPuzzle`.  The code has no
validation at all: `PuzzleBuilder::build` and `Puzzle::standard` cannot fail
and the repository defines no `InvalidPuzzle` error.  Evaluated at the
failing input (digit 5 at both `(0,0)` and `(0,1)`): construction succeeds,
the two equal clues are carried verbatim in the built puzzle, both their
positions lie in the row-0 group of that puzzle, and the built puzzle is
invalid by the group-uniqueness check. -/
theorem C1_build_skips_validation :
    (Puzzle.standard dup_clues).clues (Position.mk 0 0) = some 5 ∧
    (Puzzle.standard dup_clues).clues (Position.mk 0 1) = some 5 ∧
    Group.row 0 ∈ (Puzzle.standard dup_clues).groups ∧
    Position.mk 0 0 ∈ (Group.row 0).positions ∧
    Position.mk 0 1 ∈ (Group.row 0).positions ∧
    clues_valid (Puzzle.standard dup_clues) = false := by
  decide

/-- C2. The claim states that every originally supplied clue appears
unchanged in the element mapping of a returned solution.  The stub `solve`
returns an empty element mapping, so the clue digit 1 at `(0,0)` is present
in the puzzle but absent from the result. -/
theorem C2_clue_dropped_from_result :
    one_clue (Position.mk 0 0) = some 1 ∧
    (solve (Puzzle.standard one_clue)).puzzle.clues (Position.mk 0 0)
      = some 1 ∧
    (solve (Puzzle.standard one_clue)).elements (Position.mk 0 0) = none := by
  decide

/-- C3. The claim states that on a puzzle with a solution the result is a
total assignment of 81 entries.  The clue set `full_grid` is itself a
complete (81-entry) valid grid, so the puzzle has a solution, yet the stub
`solve` returns an element mapping defined on 0 of the 81 cells. -/
theorem C3_result_is_empty_not_total :
    clues_valid (Puzzle.standard full_grid) = true ∧
    count_assigned full_grid = 81 ∧
    count_assigned (solve (Puzzle.standard full_grid)).elements = 0 := by
  decide

/-- C6. The claim states that constructing a `Position` outside `0..9`
fails with `OutOfRange` at construction time.  The struct has no validating
constructor and the repository defines no `OutOfRange` error: the
out-of-range position `(10, 0)` is constructed successfully with its fields
intact.  The only range check in the repository is the panic inside
`CellPosition::for_coord` (modelled as `none`), which fires during use, not
at `Position` construction. -/
theorem C6_out_of_range_position_constructed :
    (Position.mk 10 0).row = 10 ∧
    (Position.mk 10 0).col = 0 ∧
    CellPosition.for_coord 10 = none ∧
    CellPosition.for_coord 8 = some CellPosition.END := by
  decide

/-- C8. The claim states that solving an already complete and valid grid
returns that grid unchanged (idempotence).  With the complete valid grid
`full_grid` as clues (all 81 cells assigned, every group duplicate-free),
the stub `solve` returns an empty element mapping instead: the built
puzzle still carries digit 1 at `(0,0)` but the result's element mapping
holds nothing there — it differs from the input grid at that cell — and
assigns 0 of the 81 cells. -/
theorem C8_complete_grid_not_returned :
    count_assigned full_grid = 81 ∧
    clues_valid (Puzzle.standard full_grid) = true ∧
    full_grid (Position.mk 0 0) = some 1 ∧
    (Puzzle.standard full_grid).clues (Position.mk 0 0) = some 1 ∧
    (solve (Puzzle.standard full_grid)).elements (Position.mk 0 0) = none ∧
    (solve (Puzzle.standard full_grid)).elements (Position.mk 0 0)
      ≠ full_grid (Position.mk 0 0) ∧
    count_assigned (solve (Puzzle.standard full_grid)).elements = 0 := by
  decide

/-- C4, counterexample. At the centre cell `(4, 4)` we have `row == col`,
yet the diagonal lookup does not return the main-diagonal group (nor the
anti-diagonal group): it returns a single merged group holding the
concatenation of both diagonals. -/
theorem C4_counterexample_centre_cell :
    (Position.mk 4 4).row = (Position.mk 4 4).col ∧
    DiagonalConstraint.get_group (Position.mk 4 4) ≠ some (Group.diag true) ∧
    DiagonalConstraint.get_group (Position.mk 4 4) ≠
      some (Group.diag false) := by
  decide

/-- C5, counterexample. The group produced by the diagonal constraint
lookup at the centre cell `(4, 4)` holds 18 positions, not 9, and the
centre position occurs twice in it; the lookup at `(0, 1)` produces a group
with 0 positions. -/
theorem C5_counterexample_degenerate_groups :
    (DiagonalConstraint.get_group (Position.mk 4 4)).map
      (fun g => g.positions.length) = some 18 ∧
    (DiagonalConstraint.get_group (Position.mk 4 4)).map
      (fun g => g.positions.count (Position.mk 4 4)) = some 2 ∧
    (DiagonalConstraint.get_group (Position.mk 0 1)).map
      (fun g => g.positions.length) = some 0 := by
  decide

/-- Helper: the nine positions of a row group are pairwise distinct. -/
theorem row_positions_nodup (r : Nat) : (Group.row r).positions.Nodup := by
  have hinj : Function.Injective fun col => Position.mk r col := by
    intro a b h
    simpa using congrArg Position.col h
  simpa [Group.row] using List.Nodup.map hinj (List.nodup_range 9)

/-- Helper: the nine positions of a column group are pairwise distinct. -/
theorem col_positions_nodup (c : Nat) : (Group.col c).positions.Nodup := by
  have hinj : Function.Injective fun row => Position.mk row c := by
    intro a b h
    simpa using congrArg Position.row h
  simpa [Group.col] using List.Nodup.map hinj (List.nodup_range 9)

/-- C4, amended. For every in-range position, the diagonal lookup returns
exactly the main-diagonal group when `row = col` and `row + col ≠ 8`,
exactly the anti-diagonal group when `row + col = 8` and `row ≠ col`, a
single merged group holding the main diagonal followed by the
anti-diagonal at the centre cell, and a group with no positions otherwise;
the row and column lookups return exactly the one row, respectively
column, group of the position, and the box lookup returns exactly one
group. -/
theorem C4_diag_conditional_others_total :
    (∀ r, r < 9 → ∀ c, c < 9 → r = c → r + c ≠ 8 →
      DiagonalConstraint.get_group (Position.mk r c)
        = some (Group.diag true)) ∧
    (∀ r, r < 9 → ∀ c, c < 9 → r + c = 8 → r ≠ c →
      DiagonalConstraint.get_group (Position.mk r c)
        = some (Group.diag false)) ∧
    (∀ r, r < 9 → ∀ c, c < 9 → r = c → r + c = 8 →
      DiagonalConstraint.get_group (Position.mk r c)
        = some (Group.mk
            ((Group.diag true).positions ++ (Group.diag false).positions))) ∧
    (∀ r, r < 9 → ∀ c, c < 9 → r ≠ c → r + c ≠ 8 →
      DiagonalConstraint.get_group (Position.mk r c) = some (Group.mk [])) ∧
    (∀ r, r < 9 → ∀ c, c < 9 →
      ConstraintTag.rowC.get_group (Position.mk r c) = some (Group.row r) ∧
      ConstraintTag.colC.get_group (Position.mk r c) = some (Group.col c) ∧
      (ConstraintTag.cellC.get_group (Position.mk r c)).isSome = true) :=
  ⟨by decide, by decide, by decide, by decide, by decide⟩

/-- C4, witness at the centre cell `(4, 4)`: both diagonal conditions hold
and the lookup returns the merged two-diagonal group. -/
theorem C4_witness_centre_cell :
    (4 : Nat) < 9 ∧ (4 : Nat) = 4 ∧ (4 : Nat) + 4 = 8 ∧
    DiagonalConstraint.get_group (Position.mk 4 4)
      = some (Group.mk
          ((Group.diag true).positions ++ (Group.diag false).positions)) :=
  ⟨by decide, by decide, by decide,
    C4_diag_conditional_others_total.2.2.1 4 (by decide) 4 (by decide)
      (by decide) (by decide)⟩

/-- C5, amended. `Group::row`, `Group::col`, `Group::cell` and
`Group::diag` always produce exactly 9 pairwise-distinct positions (hence
so do the row, column and box constraint lookups, which return those
groups); the diagonal constraint lookup instead produces, at an in-range
position, a group of 0 positions off both diagonals, 9 positions on
exactly one diagonal, and 18 positions at the centre cell. -/
theorem C5_group_sizes :
    (∀ r : Nat, (Group.row r).positions.length = 9 ∧
      (Group.row r).positions.Nodup) ∧
    (∀ c : Nat, (Group.col c).positions.length = 9 ∧
      (Group.col c).positions.Nodup) ∧
    (∀ rp cp : CellPosition, (Group.cell rp cp).positions.length = 9 ∧
      (Group.cell rp cp).positions.Nodup) ∧
    (∀ t : Bool, (Group.diag t).positions.length = 9 ∧
      (Group.diag t).positions.Nodup) ∧
    (∀ r, r < 9 → ∀ c, c < 9 →
      (ConstraintTag.cellC.get_group (Position.mk r c)).map
        (fun g => (g.positions.length, decide g.positions.Nodup))
        = some (9, true) ∧
      (DiagonalConstraint.get_group (Position.mk r c)).map
        (fun g => g.positions.length)
        = some (if r = c ∧ r + c = 8 then 18
            else if r = c ∨ r + c = 8 then 9 else 0)) := by
  refine ⟨fun r => ⟨by simp [Group.row], row_positions_nodup r⟩,
    fun c => ⟨by simp [Group.col], col_positions_nodup c⟩,
    fun rp cp => ?_, fun t => ?_, ?_⟩
  · cases rp <;> cases cp <;> exact ⟨by decide, by decide⟩
  · cases t <;> exact ⟨by decide, by decide⟩
  · decide

/-- C5, witness at the in-range cell `(0, 1)`: the box lookup yields a
9-position duplicate-free group there. -/
theorem C5_witness_box_lookup :
    (0 : Nat) < 9 ∧ (1 : Nat) < 9 ∧
    (ConstraintTag.cellC.get_group (Position.mk 0 1)).map
      (fun g => (g.positions.length, decide g.positions.Nodup))
      = some (9, true) :=
  ⟨by decide, by decide,
    (C5_group_sizes.2.2.2.2 0 (by decide) 1 (by decide)).1⟩

/-- Helper: pointwise value of the elimination map built by the blanket
`Constraint::apply` loop, folding over the group positions. -/
theorem apply_foldl_spec (v : Nat) (pos q : Position) :
    ∀ (l : List Position) (m0 : HMap Position (List Nat)),
      (l.foldl (fun m group_pos =>
        if group_pos ≠ pos then m.insert group_pos [v] else m) m0) q
        = if q ≠ pos ∧ q ∈ l then some [v] else m0 q := by
  intro l
  induction l with
  | nil => intro m0; simp
  | cons a l ih =>
    intro m0
    rw [List.foldl_cons, ih]
    by_cases hq : q = pos
    · subst hq
      rw [if_neg (fun h : q ≠ q ∧ q ∈ l => h.1 rfl),
        if_neg (fun h : q ≠ q ∧ q ∈ a :: l => h.1 rfl)]
      by_cases ha : a = q
      · rw [if_neg (not_not_intro ha)]
      · rw [if_pos ha]
        show (if q = a then some [v] else m0 q) = m0 q
        rw [if_neg (fun h => ha h.symm)]
    · by_cases hl : q ∈ l
      · rw [if_pos ⟨hq, hl⟩, if_pos ⟨hq, List.mem_cons_of_mem a hl⟩]
      · rw [if_neg (fun h : q ≠ pos ∧ q ∈ l => hl h.2)]
        by_cases ha : q = a
        · subst ha
          rw [if_pos hq]
          rw [if_pos ⟨hq, List.mem_cons_self q l⟩]
          show (if q = q then some [v] else m0 q) = some [v]
          rw [if_pos rfl]
        · rw [if_neg (fun h : q ≠ pos ∧ q ∈ a :: l =>
            (List.mem_cons.mp h.2).elim (fun h' => ha h') (fun h' => hl h'))]
          by_cases hap : a = pos
          · rw [if_neg (not_not_intro hap)]
          · rw [if_pos hap]
            show (if q = a then some [v] else m0 q) = m0 q
            rw [if_neg ha]

/-- Helper, proved by exhaustive evaluation: at every in-range position
the box lookup succeeds and its group contains the position. -/
theorem cell_lookup_contains_pos :
    ∀ r, r < 9 → ∀ c, c < 9 →
      (ConstraintTag.cellC.get_group (Position.mk r c)).map
        (fun g => decide (Position.mk r c ∈ g.positions)) = some true := by
  decide

/-- C7. For every digit value, in-range position and Row, Column or Box
constraint, the group lookup succeeds on a group containing the position,
and the elimination map built by `Constraint::apply` is defined exactly on
the other positions of that group — never on the position itself and on
nothing outside the group — mapping each such peer to the single
eliminated value. -/
theorem C7_apply_targets_exactly_group_peers :
    ∀ (value r : Nat), r < 9 → ∀ c, c < 9 → ∀ t : ConstraintTag,
      t = ConstraintTag.rowC ∨ t = ConstraintTag.colC ∨
        t = ConstraintTag.cellC →
      (t.get_group (Position.mk r c)).map
        (fun g => decide (Position.mk r c ∈ g.positions)) = some true ∧
      ∀ q : Position,
        (t.apply value (Position.mk r c)).map (fun m => m q)
          = (t.get_group (Position.mk r c)).map
              (fun g => if q ≠ Position.mk r c ∧ q ∈ g.positions
                then some [value] else none) := by
  intro value r hr c hc t ht
  constructor
  · rcases ht with rfl | rfl | rfl
    · have hmem : Position.mk r c ∈ (Group.row r).positions :=
        List.mem_map.mpr ⟨c, List.mem_range.mpr hc, rfl⟩
      simp [ConstraintTag.get_group, RowConstraint.get_group, hmem]
    · have hmem : Position.mk r c ∈ (Group.col c).positions :=
        List.mem_map.mpr ⟨r, List.mem_range.mpr hr, rfl⟩
      simp [ConstraintTag.get_group, ColumnConstraint.get_group, hmem]
    · exact cell_lookup_contains_pos r hr c hc
  · intro q
    cases hg : t.get_group (Position.mk r c) with
    | none => simp [ConstraintTag.apply, hg]
    | some g =>
      have h := apply_foldl_spec value (Position.mk r c) q g.positions
        HMap.empty
      simp only [ConstraintTag.apply, hg, Option.map_some']
      rw [h]
      rfl

/-- C7, witness: applying the row constraint with digit 5 at `(0, 3)`
eliminates 5 at the row peer `(0, 5)` and at no position outside the
row group. -/
theorem C7_witness_row_apply :
    (0 : Nat) < 9 ∧ (3 : Nat) < 9 ∧
    (ConstraintTag.rowC.get_group (Position.mk 0 3)).map
      (fun g => decide (Position.mk 0 3 ∈ g.positions)) = some true ∧
    (ConstraintTag.rowC.apply 5 (Position.mk 0 3)).map
      (fun m => m (Position.mk 0 5))
      = (ConstraintTag.rowC.get_group (Position.mk 0 3)).map
          (fun g => if Position.mk 0 5 ≠ Position.mk 0 3 ∧
              Position.mk 0 5 ∈ g.positions
            then some [5] else none) :=
  ⟨by decide, by decide,
    (C7_apply_targets_exactly_group_peers 5 0 (by decide) 3 (by decide)
      ConstraintTag.rowC (Or.inl rfl)).1,
    (C7_apply_targets_exactly_group_peers 5 0 (by decide) 3 (by decide)
      ConstraintTag.rowC (Or.inl rfl)).2 (Position.mk 0 5)⟩

/-- Specification-side helper for C9: the digit supplied by the last
entry of a clue sequence for a given position, if any. -/
def last_clue_value : List (Position × Nat) → Position → Option Nat
  | [], _ => none
  | e :: l, p =>
    match last_clue_value l p with
    | some v => some v
    | none => if e.1 = p then some e.2 else none

/-- A sequence of `add_clue` calls applied in order. -/
def PuzzleBuilder.add_clue_seq (b : PuzzleBuilder)
    (l : List (Position × Nat)) : PuzzleBuilder :=
  l.foldl (fun b e => b.add_clue e.1 e.2) b

/-- Helper: the clue map after a sequence of `add_clue` calls holds, at
each position, the value of the last call for that position, falling back
to the builder's prior clue map. -/
theorem add_clue_seq_clues :
    ∀ (l : List (Position × Nat)) (b : PuzzleBuilder) (p : Position),
      (b.add_clue_seq l).clues p =
        match last_clue_value l p with
        | some v => some v
        | none => b.clues p := by
  intro l
  induction l with
  | nil => intro b p; rfl
  | cons e l ih =>
    intro b p
    show (PuzzleBuilder.add_clue_seq (b.add_clue e.1 e.2) l).clues p = _
    rw [ih]
    cases h : last_clue_value l p with
    | some v => simp [last_clue_value, h]
    | none =>
      simp only [last_clue_value, h]
      by_cases hep : e.1 = p
      · subst hep
        show (if e.1 = e.1 then some e.2 else b.clues e.1) = _
        rw [if_pos rfl, if_pos rfl]
      · show (if p = e.1 then some e.2 else b.clues p) = _
        rw [if_neg (fun h => hep h.symm), if_neg hep]

/-- C9. Adding clues never fails: `add_clue` is a plain map insert, so
for every sequence of `add_clue` calls starting from a fresh builder, the
built puzzle holds at each position exactly the value of the last call
for that position; `add_clues` likewise lets its entries silently
replace existing ones. -/
theorem C9_last_clue_wins :
    (∀ (l : List (Position × Nat)) (p : Position),
      ((PuzzleBuilder.new.add_clue_seq l).build).clues p
        = last_clue_value l p) ∧
    (∀ (b : PuzzleBuilder) (m : HMap Position Nat) (p : Position),
      ((b.add_clues m).build).clues p =
        match m p with
        | some v => some v
        | none => b.clues p) := by
  constructor
  · intro l p
    show (PuzzleBuilder.new.add_clue_seq l).clues p = _
    rw [add_clue_seq_clues]
    cases h : last_clue_value l p <;> rfl
  · intro b m p
    show HMap.extend b.clues m p = _
    cases h : m p <;> simp [HMap.extend, h]

/-- C10. `solve` is pure and moves the input puzzle into the returned
`Solution` unchanged: the result holds exactly the input puzzle — its
groups, constraints and clue mapping as passed in — alongside the (empty)
element map, and nothing else is touched. -/
theorem C10_solve_preserves_input_puzzle :
    ∀ pz : Puzzle,
      (solve pz).puzzle = pz ∧
      (solve pz).puzzle.groups = pz.groups ∧
      (solve pz).puzzle.constraints = pz.constraints ∧
      (∀ q, (solve pz).puzzle.clues q = pz.clues q) ∧
      (∀ q, (solve pz).elements q = none) :=
  fun _ => ⟨rfl, rfl, rfl, fun _ => rfl, fun _ => rfl⟩

end Sudoku
